import Mathlib

/-!
Verification of the EVE-Overview profile store, hotkey registry, window
capturer, preview panel and controller against their specification.

The embedding is shallow: each Python class is translated to Lean
structures and pure functions; the file system, external capture tools
and the global key listener are modelled as explicit state or oracles.
Machine floats that only ever hold exact decimal values (scale factors)
are modelled as rationals; Python int is modelled as Int.
-/

namespace EveOverview

/-! Profile store (core/config_manager.py). -/

/-- WindowConfig dataclass: configuration for a single window preview. -/
structure WindowConfig where
  window_id : String
  window_title : String
  x : Int
  y : Int
  width : Int
  height : Int
  scale : Rat
  hotkey : String
  enabled : Bool
  deriving DecidableEq, Repr

/-- Dictionary image of a WindowConfig (the JSON object written by asdict).
Every field is optional so that the dictionary-access defaults of the
Python constructor call WindowConfig(**w) can be modelled. -/
structure WindowConfigDict where
  window_id : Option String
  window_title : Option String
  x : Option Int
  y : Option Int
  width : Option Int
  height : Option Int
  scale : Option Rat
  hotkey : Option String
  enabled : Option Bool
  deriving DecidableEq, Repr

/-- dataclasses.asdict applied to a WindowConfig: every field present. -/
def WindowConfig.asdict (w : WindowConfig) : WindowConfigDict :=
  ⟨some w.window_id, some w.window_title, some w.x, some w.y,
   some w.width, some w.height, some w.scale, some w.hotkey, some w.enabled⟩

/-- The constructor call WindowConfig(**w) of Profile.from_dict: the five
required fields must be present (a missing one raises, i.e. yields none),
the three defaulted fields fall back to the dataclass defaults
scale = 0.3, hotkey = empty, enabled = true. -/
def WindowConfig.ofKwargs (d : WindowConfigDict) : Option WindowConfig := do
  let wid ← d.window_id
  let wt ← d.window_title
  let x ← d.x
  let y ← d.y
  let w ← d.width
  let h ← d.height
  pure ⟨wid, wt, x, y, w, h, d.scale.getD (3/10), d.hotkey.getD "", d.enabled.getD true⟩

/-- Profile dataclass: a named collection of window configurations. -/
structure Profile where
  name : String
  windows : List WindowConfig
  refresh_rate : Int
  always_on_top : Bool
  click_through : Bool
  deriving DecidableEq, Repr

/-- Dictionary image of a Profile as produced by Profile.to_dict and
consumed by Profile.from_dict; fields optional to model data.get defaults. -/
structure ProfileDict where
  name : Option String
  windows : Option (List WindowConfigDict)
  refresh_rate : Option Int
  always_on_top : Option Bool
  click_through : Option Bool
  deriving DecidableEq, Repr

/-- Profile.to_dict: serialize a profile, all keys present. -/
def Profile.to_dict (p : Profile) : ProfileDict :=
  ⟨some p.name, some (p.windows.map WindowConfig.asdict),
   some p.refresh_rate, some p.always_on_top, some p.click_through⟩

/-- The list comprehension of Profile.from_dict building WindowConfig
values from the dictionaries; the first malformed entry aborts the whole
construction (the Python comprehension raises there). -/
def windowsFromDicts : List WindowConfigDict → Option (List WindowConfig)
  | [] => some []
  | d :: ds => do
    let w ← WindowConfig.ofKwargs d
    let ws ← windowsFromDicts ds
    pure (w :: ws)

/-- Profile.from_dict: rebuild a profile from a dictionary, with the
data.get defaults of the source; a malformed windows entry makes the
whole call fail (the Python code raises, the caller catches). -/
def Profile.from_dict (d : ProfileDict) : Option Profile := do
  let ws ← windowsFromDicts (d.windows.getD [])
  pure ⟨d.name.getD "Default", ws, d.refresh_rate.getD 30,
        d.always_on_top.getD true, d.click_through.getD false⟩

/-- The profiles directory as a partial map from a profile name (the
filename stem) to the stored profile document. -/
abbrev ProfilesDir := String → Option ProfileDict

/-- ConfigManager.save_profile: write the serialized profile to the file
named after the profile; returns true on success. -/
def save_profile (fs : ProfilesDir) (p : Profile) : ProfilesDir × Bool :=
  (Function.update fs p.name (some p.to_dict), true)

/-- ConfigManager.load_profile: none when the file does not exist;
otherwise parse the stored document (parsing may fail). -/
def load_profile (fs : ProfilesDir) (profile_name : String) : Option Profile :=
  match fs profile_name with
  | none => none
  | some d => Profile.from_dict d

/-- ConfigManager.delete_profile: refuse to delete the Default profile;
otherwise unlink the file when it exists. -/
def delete_profile (fs : ProfilesDir) (profile_name : String) : ProfilesDir × Bool :=
  if profile_name = "Default" then (fs, false)
  else if (fs profile_name).isSome then (Function.update fs profile_name none, true)
  else (fs, false)

/-- ConfigManager.list_profiles over the list of existing profile file
name stems: insert Default at the front when absent, then sort. -/
def list_profiles (stems : List String) : List String :=
  let profiles := stems
  let profiles := if "Default" ∈ profiles then profiles else "Default" :: profiles
  List.insertionSort (fun a b => a ≤ b) profiles

theorem ofKwargs_asdict (w : WindowConfig) :
    WindowConfig.ofKwargs w.asdict = some w := rfl

theorem from_dict_to_dict (p : Profile) :
    Profile.from_dict p.to_dict = some p := by
  have hws : windowsFromDicts (p.windows.map WindowConfig.asdict)
      = some p.windows := by
    induction p.windows with
    | nil => rfl
    | cons w ws ih => simp [windowsFromDicts, ih, ofKwargs_asdict]
  simp [Profile.from_dict, Profile.to_dict, hws]

/-- C1: profile persistence round-trips: saving a profile and loading it
back by its name returns an equal profile, and at the dictionary level
Profile.from_dict inverts Profile.to_dict. -/
theorem profile_save_load_roundtrip (fs : ProfilesDir) (p : Profile) :
    load_profile (save_profile fs p).1 p.name = some p ∧
    Profile.from_dict p.to_dict = some p := by
  constructor
  · simp [load_profile, save_profile, Function.update_same, from_dict_to_dict]
  · exact from_dict_to_dict p

/-- C3: delete_profile refuses to delete Default, returning false and
leaving the directory untouched; for any other existing profile name it
removes exactly that file and returns true. -/
theorem delete_profile_spec :
    (∀ fs : ProfilesDir, delete_profile fs "Default" = (fs, false)) ∧
    (∀ (fs : ProfilesDir) (n : String), n ≠ "Default" → (fs n).isSome →
      (delete_profile fs n).2 = true ∧
      (delete_profile fs n).1 n = none ∧
      ∀ m, m ≠ n → (delete_profile fs n).1 m = fs m) := by
  refine ⟨fun fs => by simp [delete_profile], fun fs n hn hex => ?_⟩
  refine ⟨by simp [delete_profile, hn, hex], by simp [delete_profile, hn, hex], ?_⟩
  intro m hm
  simp [delete_profile, hn, hex, Function.update_noteq hm]

/-- Witness for delete_profile_spec at a one-file directory. -/
theorem delete_profile_spec_witness :
    ("A" : String) ≠ "Default" ∧
    (delete_profile (fun n => if n = "A" then some ⟨none, none, none, none, none⟩ else none) "A").2
      = true := by
  constructor
  · decide
  · exact (delete_profile_spec.2 (fun n => if n = "A" then some ⟨none, none, none, none, none⟩ else none)
      "A" (by decide) (by simp)).1

/-- C4: list_profiles always contains Default, is sorted lexicographically,
has no duplicates when the directory has none, lists every existing stem,
and contains nothing besides the stems and Default. -/
theorem list_profiles_spec (stems : List String) (h : stems.Nodup) :
    "Default" ∈ list_profiles stems ∧
    (list_profiles stems).Sorted (fun a b => a ≤ b) ∧
    (list_profiles stems).Nodup ∧
    (∀ s ∈ stems, s ∈ list_profiles stems) ∧
    (∀ s ∈ list_profiles stems, s ∈ stems ∨ s = "Default") := by
  have hperm : List.Perm (list_profiles stems)
      (if "Default" ∈ stems then stems else "Default" :: stems) := by
    simpa [list_profiles] using
      List.perm_insertionSort (fun a b => a ≤ b)
        (if "Default" ∈ stems then stems else "Default" :: stems)
  refine ⟨?_, ?_, ?_, ?_, ?_⟩
  · rw [hperm.mem_iff]
    by_cases hd : "Default" ∈ stems <;> simp [hd]
  · simpa [list_profiles] using
      List.sorted_insertionSort (fun a b => a ≤ b)
        (if "Default" ∈ stems then stems else "Default" :: stems)
  · refine hperm.nodup_iff.mpr ?_
    by_cases hd : "Default" ∈ stems <;> simp [hd, h]
  · intro s hs
    rw [hperm.mem_iff]
    by_cases hd : "Default" ∈ stems <;> simp [hd, hs]
  · intro s hs
    rw [hperm.mem_iff] at hs
    by_cases hd : "Default" ∈ stems
    · simp [hd] at hs; exact Or.inl hs
    · simp [hd] at hs
      rcases hs with h1 | h2
      · exact Or.inr h1
      · exact Or.inl h2

/-- Witness for list_profiles_spec on a concrete two-file directory. -/
theorem list_profiles_spec_witness :
    (["b", "a"] : List String).Nodup ∧ "Default" ∈ list_profiles ["b", "a"] :=
  ⟨by decide, (list_profiles_spec ["b", "a"] (by decide)).1⟩

/-! Window capturer (core/window_capture.py). External tools are
modelled as an oracle giving, per window identifier, the outcome of each
subprocess invocation; a failed invocation (tool missing, timeout,
non-zero exit, empty output, decode error) is collapsed to none, which
is exactly the set of conditions under which the code falls through. -/

/-- A decoded bitmap; only its pixel dimensions matter here. -/
structure PImage where
  width : Nat
  height : Nat
  deriving DecidableEq, Repr

/-- Python int() applied to a rational: truncation toward zero. -/
def pyInt (q : Rat) : Int := if q < 0 then ⌈q⌉ else ⌊q⌋

/-- The scaling step shared by both capture paths: if scale is not 1.0,
resize to (int(width*scale), int(height*scale)). -/
def scaleImage (img : PImage) (scale : Rat) : PImage :=
  if scale ≠ 1 then
    ⟨(pyInt (img.width * scale)).toNat, (pyInt (img.height * scale)).toNat⟩
  else img

/-- Outcomes of the external capture tools for this run: the primary
ImageMagick tool (none on any failure including decode), the raw xwd
dump, and the xwd-to-png conversion of a given dump. -/
structure CaptureEnv where
  importResult : String → Option PImage
  xwdResult : String → Option (List Nat)
  convertResult : List Nat → Option PImage

/-- WindowCapture._capture_window_xwd: xwd dump piped through convert;
none when either stage fails. -/
def capture_window_xwd (env : CaptureEnv) (window_id : String) (scale : Rat) :
    Option PImage :=
  match env.xwdResult window_id with
  | none => none
  | some raw =>
    match env.convertResult raw with
    | none => none
    | some img => some (scaleImage img scale)

/-- WindowCapture.capture_window: primary import tool, falling back to
the xwd chain on any failure. -/
def capture_window (env : CaptureEnv) (window_id : String) (scale : Rat) :
    Option PImage :=
  match env.importResult window_id with
  | some img => some (scaleImage img scale)
  | none => capture_window_xwd env window_id scale

/-- C5: capture always terminates with an optional image (exceptions are
modelled away by totality): when the primary tool fails it runs exactly
the xwd fallback, and when the fallback also fails, at either stage, the
result is none. -/
theorem capture_window_error_handling (env : CaptureEnv) (wid : String) (scale : Rat) :
    (capture_window env wid scale = none ∨
      ∃ img, capture_window env wid scale = some img) ∧
    (env.importResult wid = none →
      capture_window env wid scale = capture_window_xwd env wid scale) ∧
    (env.importResult wid = none → env.xwdResult wid = none →
      capture_window env wid scale = none) ∧
    (∀ raw, env.importResult wid = none → env.xwdResult wid = some raw →
      env.convertResult raw = none → capture_window env wid scale = none) := by
  refine ⟨?_, ?_, ?_, ?_⟩
  · cases h : capture_window env wid scale with
    | none => exact Or.inl rfl
    | some img => exact Or.inr ⟨img, rfl⟩
  · intro h1; simp [capture_window, h1]
  · intro h1 h2; simp [capture_window, capture_window_xwd, h1, h2]
  · intro raw h1 h2 h3; simp [capture_window, capture_window_xwd, h1, h2, h3]

/-- An environment in which every external capture tool fails. -/
def envAllFail : CaptureEnv := ⟨fun _ => none, fun _ => none, fun _ => none⟩

/-- Witness for capture_window_error_handling: with every tool failing,
capture of a non-existent window returns none. -/
theorem capture_window_error_handling_witness :
    capture_window envAllFail "0x999" 1 = none :=
  (capture_window_error_handling envAllFail "0x999" 1).2.2.1 rfl rfl

/-- An environment whose primary capture of window w succeeds with a
3 by 3 image. -/
def envThree : CaptureEnv :=
  ⟨fun _ => some ⟨3, 3⟩, fun _ => none, fun _ => none⟩

/-- C2 counterexample: a successful capture of a 3 by 3 image at scale
0.5 yields a 1 by 1 image, while arithmetic rounding of 3 times 0.5
gives 2: the code truncates with int(), it does not round. -/
theorem capture_scale_not_round :
    capture_window envThree "w" (1/2) = some ⟨1, 1⟩ ∧
    round ((3 : Rat) * (1/2)) = 2 ∧ (1 : Nat) ≠ 2 := by
  have himg : scaleImage ⟨3, 3⟩ (1/2) = ⟨1, 1⟩ := by
    simp only [scaleImage, pyInt]
    norm_num
  refine ⟨?_, ?_, by decide⟩
  · simpa [capture_window, envThree] using himg
  · norm_num [round_eq]

/-- C2 amended: for every successful capture with scale not equal to
1.0, on either the primary or the fallback path, the returned bitmap
dimensions are int(width*scale) by int(height*scale) of the originally
captured image, where int is Python truncation toward zero. -/
theorem capture_scale_truncates (env : CaptureEnv) (wid : String) (scale : Rat)
    (img : PImage) (hs : scale ≠ 1) :
    (env.importResult wid = some img →
      capture_window env wid scale =
        some ⟨(pyInt (img.width * scale)).toNat, (pyInt (img.height * scale)).toNat⟩) ∧
    (∀ raw, env.importResult wid = none → env.xwdResult wid = some raw →
      env.convertResult raw = some img →
      capture_window env wid scale =
        some ⟨(pyInt (img.width * scale)).toNat, (pyInt (img.height * scale)).toNat⟩) := by
  constructor
  · intro h1; simp [capture_window, h1, scaleImage, hs]
  · intro raw h1 h2 h3
    simp [capture_window, capture_window_xwd, h1, h2, h3, scaleImage, hs]

/-- Witness for capture_scale_truncates: the 3 by 3 capture at scale 0.5
comes back 1 by 1. -/
theorem capture_scale_truncates_witness :
    ((1 : Rat)/2) ≠ 1 ∧ capture_window envThree "w" (1/2) = some ⟨1, 1⟩ := by
  have h := (capture_scale_truncates envThree "w" (1/2) ⟨3, 3⟩ (by norm_num)).1 rfl
  refine ⟨by norm_num, ?_⟩
  rw [h]
  simp only [pyInt]
  norm_num

/-! Hotkey registry (core/hotkey_manager.py). Python dicts are modelled
as insertion-ordered association lists: assigning to an existing key
replaces its value in place, assigning a fresh key appends, del removes
the key, and iteration follows the list order. Callbacks are opaque and
identified by a number. -/

/-- Assignment d[k] = v on an insertion-ordered dictionary. -/
def dictInsert {α : Type} (l : List (String × α)) (k : String) (v : α) :
    List (String × α) :=
  if l.any (fun e => e.1 = k) then
    l.map (fun e => if e.1 = k then (k, v) else e)
  else l ++ [(k, v)]

/-- Statement del d[k] on a dictionary. -/
def dictErase {α : Type} (l : List (String × α)) (k : String) : List (String × α) :=
  l.filter (fun e => e.1 ≠ k)

/-- Value stored per hotkey name: the combo string and the callback. -/
structure HotkeyInfo where
  combo : String
  callback : Nat
  deriving DecidableEq, Repr

/-- HotkeyManager state: the name-keyed binding dictionary and the
currently running listener, modelled by the combo-keyed map it was
built from (none when no listener is running). Each map value carries
the callback and the hotkey name whose notification the wrapper emits. -/
structure HotkeyManagerState where
  hotkeys : List (String × HotkeyInfo)
  listener : Option (List (String × (Nat × String)))
  deriving DecidableEq, Repr

/-- The hotkey_map construction of _restart_listener: iterate the
bindings in dictionary order, keying by combo, so a later binding with
the same combo overwrites the earlier entry. -/
def buildHotkeyMap (hotkeys : List (String × HotkeyInfo)) :
    List (String × (Nat × String)) :=
  hotkeys.foldl (fun m e => dictInsert m e.2.combo (e.2.callback, e.1)) []

/-- HotkeyManager._restart_listener: stop any running listener, then
start a fresh one from the current bindings, unless there are none. -/
def restart_listener (st : HotkeyManagerState) : HotkeyManagerState :=
  let stopped : HotkeyManagerState := ⟨st.hotkeys, none⟩
  if stopped.hotkeys = [] then stopped
  else ⟨stopped.hotkeys, some (buildHotkeyMap stopped.hotkeys)⟩

/-- HotkeyManager.register_hotkey: store the binding under its name and
restart the listener. -/
def register_hotkey (st : HotkeyManagerState) (name key_combo : String)
    (callback : Nat) : HotkeyManagerState × Bool :=
  (restart_listener ⟨dictInsert st.hotkeys name ⟨key_combo, callback⟩, st.listener⟩, true)

/-- HotkeyManager.unregister_hotkey: delete the binding when present and
restart the listener; false when the name is unknown. -/
def unregister_hotkey (st : HotkeyManagerState) (name : String) :
    HotkeyManagerState × Bool :=
  if st.hotkeys.any (fun e => e.1 = name) then
    (restart_listener ⟨dictErase st.hotkeys name, st.listener⟩, true)
  else (st, false)

theorem dictInsert_of_not_mem {α : Type} (l : List (String × α)) (k : String) (v : α)
    (h : ¬ l.any (fun e => e.1 = k)) : dictInsert l k v = l ++ [(k, v)] := by
  simp only [dictInsert]
  rw [if_neg]
  simpa using h

theorem dictErase_append_singleton {α : Type} (l : List (String × α)) (k : String) (v : α)
    (h : ¬ l.any (fun e => e.1 = k)) : dictErase (l ++ [(k, v)]) k = l := by
  simp only [dictErase, List.filter_append]
  have h1 : l.filter (fun e => e.1 ≠ k) = l := by
    apply List.filter_eq_self.mpr
    intro e he
    simp only [List.any_eq_true, not_exists, not_and] at h
    simp [h e he]
  have h2 : ([(k, v)] : List (String × α)).filter (fun e => e.1 ≠ k) = [] := by simp
  rw [h1, h2, List.append_nil]

/-- C7: registering a fresh name X and then unregistering it returns the
binding dictionary to its previous contents; unregister reports success;
and each of the two operations rebuilds the listener from exactly the
bindings present after its own mutation (stop then start, no incremental
update), the final listener being none when no binding remains. -/
theorem register_unregister_roundtrip (st : HotkeyManagerState)
    (X combo : String) (cb : Nat)
    (hX : ¬ st.hotkeys.any (fun e => e.1 = X)) :
    ((register_hotkey st X combo cb).1.hotkeys = st.hotkeys ++ [(X, ⟨combo, cb⟩)]) ∧
    ((register_hotkey st X combo cb).1.listener =
      some (buildHotkeyMap (st.hotkeys ++ [(X, ⟨combo, cb⟩)]))) ∧
    ((unregister_hotkey (register_hotkey st X combo cb).1 X).2 = true) ∧
    ((unregister_hotkey (register_hotkey st X combo cb).1 X).1.hotkeys = st.hotkeys) ∧
    ((unregister_hotkey (register_hotkey st X combo cb).1 X).1.listener =
      if st.hotkeys = [] then none else some (buildHotkeyMap st.hotkeys)) := by
  have hins : dictInsert st.hotkeys X ⟨combo, cb⟩ = st.hotkeys ++ [(X, ⟨combo, cb⟩)] :=
    dictInsert_of_not_mem _ _ _ hX
  have hne : st.hotkeys ++ [(X, ⟨combo, cb⟩)] ≠ [] := by simp
  have hreg : (register_hotkey st X combo cb).1 =
      ⟨st.hotkeys ++ [(X, ⟨combo, cb⟩)],
       some (buildHotkeyMap (st.hotkeys ++ [(X, ⟨combo, cb⟩)]))⟩ := by
    simp [register_hotkey, restart_listener, hins, hne]
  have hany : (st.hotkeys ++ [(X, (⟨combo, cb⟩ : HotkeyInfo))]).any (fun e => e.1 = X) := by
    simp
  have herase : dictErase (st.hotkeys ++ [(X, ⟨combo, cb⟩)]) X = st.hotkeys :=
    dictErase_append_singleton _ _ _ hX
  have hunreg : (unregister_hotkey (register_hotkey st X combo cb).1 X) =
      (restart_listener ⟨st.hotkeys, some (buildHotkeyMap (st.hotkeys ++ [(X, ⟨combo, cb⟩)]))⟩,
        true) := by
    rw [hreg]
    simp [unregister_hotkey, hany, herase]
  refine ⟨by rw [hreg], by rw [hreg], by rw [hunreg], ?_, ?_⟩
  · rw [hunreg]
    by_cases h0 : st.hotkeys = [] <;> simp [restart_listener, h0]
  · rw [hunreg]
    by_cases h0 : st.hotkeys = [] <;> simp [restart_listener, h0]

/-- A one-binding hotkey manager state used by witnesses. -/
def hkSample : HotkeyManagerState := ⟨[("a", ⟨"<ctrl>+1", 5⟩)], none⟩

/-- Witness for register_unregister_roundtrip on a one-binding state. -/
theorem register_unregister_roundtrip_witness :
    (¬ hkSample.hotkeys.any (fun e => e.1 = "b")) ∧
    (unregister_hotkey (register_hotkey hkSample "b" "<alt>+2" 7).1 "b").1.hotkeys
      = hkSample.hotkeys :=
  ⟨by decide,
   (register_unregister_roundtrip hkSample "b" "<alt>+2" 7 (by decide)).2.2.2.1⟩

/-- Dictionary lookup d.get(k): the value at key k, scanning in order. -/
def dictGet {α : Type} (l : List (String × α)) (k : String) : Option α :=
  match l with
  | [] => none
  | e :: es => if e.1 = k then some e.2 else dictGet es k

theorem dictGet_append {α : Type} (l1 l2 : List (String × α)) (k : String) :
    dictGet (l1 ++ l2) k =
      match dictGet l1 k with
      | some v => some v
      | none => dictGet l2 k := by
  induction l1 with
  | nil => simp [dictGet]
  | cons e es ih =>
    by_cases h : e.1 = k <;> simp [dictGet, h, ih]

theorem dictGet_eq_none_of_not_any {α : Type} (l : List (String × α)) (k : String)
    (h : ¬ l.any (fun e => e.1 = k)) : dictGet l k = none := by
  induction l with
  | nil => rfl
  | cons e es ih =>
    simp only [List.any_cons, Bool.or_eq_true, decide_eq_true_eq, not_or] at h
    simp [dictGet, h.1, ih (by simpa using h.2)]

theorem dictGet_dictInsert_self {α : Type} (l : List (String × α)) (k : String) (v : α) :
    dictGet (dictInsert l k v) k = some v := by
  by_cases hany : l.any (fun e => e.1 = k)
  · simp only [dictInsert, hany, if_true]
    induction l with
    | nil => simp at hany
    | cons e es ih =>
      by_cases h : e.1 = k
      · simp [dictGet, h]
      · simp only [List.any_cons, Bool.or_eq_true, decide_eq_true_eq] at hany
        rcases hany with h1 | h2
        · exact absurd h1 h
        · simp [dictGet, h, ih h2]
  · rw [dictInsert_of_not_mem _ _ _ hany, dictGet_append,
      dictGet_eq_none_of_not_any _ _ hany]
    simp [dictGet]

theorem replaceMap_eq_self {α : Type} (es : List (String × α)) (k : String) (v : α)
    (h : ¬ es.any (fun e => e.1 = k)) :
    es.map (fun e => if e.1 = k then (k, v) else e) = es := by
  induction es with
  | nil => rfl
  | cons a es ih =>
    simp only [List.any_cons, Bool.or_eq_true, decide_eq_true_eq, not_or] at h
    simp only [List.map_cons, h.1, if_false]
    rw [ih (by simpa using h.2)]

theorem dictGet_dictInsert_ne {α : Type} (l : List (String × α)) (k k' : String) (v : α)
    (hk : k ≠ k') : dictGet (dictInsert l k v) k' = dictGet l k' := by
  by_cases hany : l.any (fun e => e.1 = k)
  · simp only [dictInsert, hany, if_true]
    induction l with
    | nil => rfl
    | cons e es ih =>
      by_cases h2 : es.any (fun e => e.1 = k)
      · by_cases h : e.1 = k
        · have he : e.1 ≠ k' := h ▸ hk
          simp only [List.map_cons, h, if_true, dictGet, hk, if_false, he]
          exact ih h2
        · simp only [List.map_cons, h, if_false, dictGet]
          by_cases he : e.1 = k' <;> simp [he, ih h2]
      · by_cases h : e.1 = k
        · have he : e.1 ≠ k' := h ▸ hk
          simp only [List.map_cons, h, if_true, dictGet, hk, if_false, he,
            replaceMap_eq_self es k v h2]
        · simp only [List.map_cons, h, if_false, dictGet, replaceMap_eq_self es k v h2]
  · rw [dictInsert_of_not_mem _ _ _ hany, dictGet_append]
    cases hg : dictGet l k' with
    | some v' => rfl
    | none => simp [dictGet, hk]

theorem dictInsert_keys {α : Type} (l : List (String × α)) (k : String) (v : α) :
    (dictInsert l k v).map Prod.fst =
      if l.any (fun e => e.1 = k) then l.map Prod.fst
      else l.map Prod.fst ++ [k] := by
  by_cases hany : l.any (fun e => e.1 = k)
  · simp only [dictInsert, hany, if_true, List.map_map]
    congr 1
    funext e
    by_cases h : e.1 = k <;> simp [Function.comp, h]
  · simp [dictInsert, hany]

theorem dictInsert_keys_nodup {α : Type} (l : List (String × α)) (k : String) (v : α)
    (h : (l.map Prod.fst).Nodup) : ((dictInsert l k v).map Prod.fst).Nodup := by
  rw [dictInsert_keys]
  by_cases hany : l.any (fun e => e.1 = k)
  · simpa [hany] using h
  · simp only [hany, if_false]
    have hk : k ∉ l.map Prod.fst := by
      simp only [List.any_eq_true, decide_eq_true_eq, not_exists, not_and] at hany
      simp only [List.mem_map, not_exists, not_and]
      intro e he
      exact fun hek => hany e he hek
    simp [List.nodup_append, h, hk]

/-- The binding that ends up owning a combo in the rebuilt map: the last
binding in dictionary iteration order whose combo matches. -/
def lastBindingFor (hotkeys : List (String × HotkeyInfo)) (c : String) :
    Option (Nat × String) :=
  (hotkeys.reverse.find? (fun e => e.2.combo = c)).map (fun e => (e.2.callback, e.1))

theorem buildLoop_get (l : List (String × HotkeyInfo))
    (acc : List (String × (Nat × String))) (c : String) :
    dictGet (l.foldl (fun m e => dictInsert m e.2.combo (e.2.callback, e.1)) acc) c =
      match lastBindingFor l c with
      | some x => some x
      | none => dictGet acc c := by
  induction l generalizing acc with
  | nil => simp [lastBindingFor]
  | cons e es ih =>
    rw [List.foldl_cons, ih]
    have hrev : (e :: es).reverse = es.reverse ++ [e] := by simp
    by_cases hes : (es.reverse.find? (fun x => x.2.combo = c)).isSome
    · rcases Option.isSome_iff_exists.mp hes with ⟨x, hx⟩
      simp [lastBindingFor, hrev, List.find?_append, hx]
    · have hnone : es.reverse.find? (fun x => x.2.combo = c) = none :=
        Option.not_isSome_iff_eq_none.mp hes
      simp only [lastBindingFor, hrev, List.find?_append, hnone, Option.orElse]
      by_cases hc : e.2.combo = c
      · subst hc
        simp [List.find?, dictGet_dictInsert_self]
      · simp [List.find?, hc, dictGet_dictInsert_ne _ _ _ _ hc]

theorem buildLoop_keys_nodup (l : List (String × HotkeyInfo))
    (acc : List (String × (Nat × String)))
    (h : (acc.map Prod.fst).Nodup) :
    ((l.foldl (fun m e => dictInsert m e.2.combo (e.2.callback, e.1)) acc).map
      Prod.fst).Nodup := by
  induction l generalizing acc with
  | nil => exact h
  | cons e es ih => exact ih _ (dictInsert_keys_nodup _ _ _ h)

/-- C10: the combo-keyed listener map never holds two entries for one
combo (its keys are duplicate-free), the entry a combo does get is the
callback and name of the last binding iterated over (so with two
same-combo bindings only the later one can ever fire), and when all
registered combos are pairwise distinct every binding is delivered its
own callback and name. -/
theorem duplicate_combo_last_wins (l : List (String × HotkeyInfo)) (c : String) :
    ((buildHotkeyMap l).map Prod.fst).Nodup ∧
    dictGet (buildHotkeyMap l) c = lastBindingFor l c ∧
    ((l.map (fun e => e.2.combo)).Nodup →
      ∀ e ∈ l, dictGet (buildHotkeyMap l) e.2.combo = some (e.2.callback, e.1)) := by
  refine ⟨buildLoop_keys_nodup l [] (by simp), ?_, ?_⟩
  · rw [buildHotkeyMap, buildLoop_get]
    cases lastBindingFor l c with
    | none => rfl
    | some x => rfl
  · intro hnd e he
    rw [buildHotkeyMap, buildLoop_get]
    have hlast : lastBindingFor l e.2.combo = some (e.2.callback, e.1) := by
      induction l with
      | nil => simp at he
      | cons a es ih =>
        have hrev : (a :: es).reverse = es.reverse ++ [a] := by simp
        simp only [List.map_cons, List.nodup_cons] at hnd
        rcases List.mem_cons.mp he with rfl | hmem
        · have hnone : es.reverse.find? (fun x => x.2.combo = e.2.combo) = none := by
            rw [List.find?_eq_none]
            intro x hx
            simp only [decide_eq_true_eq]
            intro hxc
            exact hnd.1 (hxc ▸ List.mem_map_of_mem (fun b => b.2.combo)
              (List.mem_reverse.mp hx))
          simp [lastBindingFor, hrev, List.find?_append, hnone, Option.orElse, List.find?]
        · have := ih hnd.2 hmem
          simp only [lastBindingFor] at this
          rcases Option.map_eq_some'.mp this with ⟨x, hx, hxval⟩
          simp [lastBindingFor, hrev, List.find?_append, hx, Option.orElse, hxval]
    rw [hlast]

/-- Witness for duplicate_combo_last_wins: two bindings sharing the
combo, only the later one survives in the map. -/
theorem duplicate_combo_last_wins_witness :
    dictGet (buildHotkeyMap [("n1", ⟨"<ctrl>+1", 5⟩), ("n2", ⟨"<ctrl>+1", 7⟩)]) "<ctrl>+1"
      = lastBindingFor [("n1", ⟨"<ctrl>+1", 5⟩), ("n2", ⟨"<ctrl>+1", 7⟩)] "<ctrl>+1" :=
  (duplicate_combo_last_wins [("n1", ⟨"<ctrl>+1", 5⟩), ("n2", ⟨"<ctrl>+1", 7⟩)]
    "<ctrl>+1").2.1

/-! Preview panel (ui/preview_frame.py). Only the fields the claims are
about are modelled: the scale factor, the refresh rate, and the update
timer; Qt drawing and geometry stay outside the embedding. -/

/-- The mutable preview panel fields set in PreviewFrame.__init__ and
touched by the panel operations. -/
structure PanelState where
  scale_factor : Rat
  refresh_rate : Int
  timer_active : Bool
  timer_interval : Int
  deriving DecidableEq, Repr

/-- PreviewFrame.__init__: scale_factor 0.3, refresh_rate 30 FPS, timer
not yet started. -/
def initPanel : PanelState := ⟨3/10, 30, false, 0⟩

/-- PreviewFrame.set_scale: clamp into the 0.1 to 1.0 range. -/
def set_scale (st : PanelState) (scale : Rat) : PanelState :=
  { st with scale_factor := max (1/10) (min 1 scale) }

/-- PreviewFrame.set_refresh_rate: clamp into 1 to 60 FPS and re-arm a
running timer at the new interval. -/
def set_refresh_rate (st : PanelState) (fps : Int) : PanelState :=
  let st1 : PanelState := { st with refresh_rate := max 1 (min 60 fps) }
  if st1.timer_active then { st1 with timer_interval := Int.fdiv 1000 st1.refresh_rate }
  else st1

/-- PreviewFrame.start_preview: arm the timer at 1000 div refresh_rate. -/
def start_preview (st : PanelState) : PanelState :=
  { st with timer_active := true, timer_interval := Int.fdiv 1000 st.refresh_rate }

/-- PreviewFrame.stop_preview: stop the timer. -/
def stop_preview (st : PanelState) : PanelState :=
  { st with timer_active := false }

/-- One panel operation, as a step relation between panel states. -/
inductive PanelStep : PanelState → PanelState → Prop
  | scale (st : PanelState) (s : Rat) : PanelStep st (set_scale st s)
  | refresh (st : PanelState) (f : Int) : PanelStep st (set_refresh_rate st f)
  | start (st : PanelState) : PanelStep st (start_preview st)
  | stop (st : PanelState) : PanelStep st (stop_preview st)

/-- The bounds invariant of the claim: scale factor in 0.1 to 1.0 and
refresh rate in 1 to 60. -/
def panelBounds (st : PanelState) : Prop :=
  1/10 ≤ st.scale_factor ∧ st.scale_factor ≤ 1 ∧
  1 ≤ st.refresh_rate ∧ st.refresh_rate ≤ 60

theorem set_scale_bounds (st : PanelState) (s : Rat) :
    1/10 ≤ (set_scale st s).scale_factor ∧ (set_scale st s).scale_factor ≤ 1 := by
  constructor
  · exact le_max_left _ _
  · exact max_le (by norm_num) (min_le_left _ _)

theorem set_refresh_rate_bounds (st : PanelState) (f : Int) :
    1 ≤ (set_refresh_rate st f).refresh_rate ∧
    (set_refresh_rate st f).refresh_rate ≤ 60 := by
  have h1 : (1 : Int) ≤ max 1 (min 60 f) := le_max_left _ _
  have h2 : max 1 (min 60 f) ≤ 60 := max_le (by norm_num) (min_le_left _ _)
  unfold set_refresh_rate
  by_cases ht : st.timer_active <;> simp [ht, h1, h2]

/-- C8: the initial panel state respects the bounds, set_scale always
lands the scale factor in 0.1 to 1.0, set_refresh_rate always lands the
refresh rate in 1 to 60, and every panel operation preserves the bounds
invariant. -/
theorem panel_bounds_invariant :
    panelBounds initPanel ∧
    (∀ (st : PanelState) (s : Rat),
      1/10 ≤ (set_scale st s).scale_factor ∧ (set_scale st s).scale_factor ≤ 1) ∧
    (∀ (st : PanelState) (f : Int),
      1 ≤ (set_refresh_rate st f).refresh_rate ∧
      (set_refresh_rate st f).refresh_rate ≤ 60) ∧
    (∀ st st' : PanelState, panelBounds st → PanelStep st st' → panelBounds st') := by
  refine ⟨?_, set_scale_bounds, set_refresh_rate_bounds, ?_⟩
  · refine ⟨by norm_num [initPanel], by norm_num [initPanel], by
      norm_num [initPanel], by norm_num [initPanel]⟩
  · intro st st' hb hstep
    cases hstep with
    | scale s =>
      have h := set_scale_bounds st s
      exact ⟨h.1, h.2, by simp [set_scale, hb.2.2.1], by simp [set_scale, hb.2.2.2]⟩
    | refresh f =>
      have h := set_refresh_rate_bounds st f
      have hsc : (set_refresh_rate st f).scale_factor = st.scale_factor := by
        unfold set_refresh_rate
        by_cases ht : st.timer_active <;> simp [ht]
      exact ⟨hsc ▸ hb.1, hsc ▸ hb.2.1, h.1, h.2⟩
    | start => exact ⟨hb.1, hb.2.1, hb.2.2.1, hb.2.2.2⟩
    | stop => exact ⟨hb.1, hb.2.1, hb.2.2.1, hb.2.2.2⟩

/-- Witness for panel_bounds_invariant: a wildly out-of-range scale on
the initial panel still lands in bounds. -/
theorem panel_bounds_invariant_witness :
    panelBounds initPanel ∧ panelBounds (set_scale initPanel 500) := by
  have h0 := panel_bounds_invariant.1
  refine ⟨h0, panel_bounds_invariant.2.2.2 initPanel (set_scale initPanel 500) h0
    (PanelStep.scale initPanel 500)⟩

/-! Application controller (ui/main_window.py). The live-panel registry
is the key set of the preview_frames dictionary, the previews list holds
one row per window identifier, and the hotkey manager is the registry
above. -/

/-- The controller state touched by MainWindow._on_preview_closed. -/
structure ControllerState where
  preview_frames : List String
  previews_list : List String
  hotkey_mgr : HotkeyManagerState
  deriving DecidableEq, Repr

/-- MainWindow._on_preview_closed: when the window still has a live
panel, unregister its preview hotkey, drop it from the registry and take
its row out of the previews list; otherwise do nothing. -/
def on_preview_closed (st : ControllerState) (window_id : String) : ControllerState :=
  if window_id ∈ st.preview_frames then
    { preview_frames := st.preview_frames.erase window_id,
      previews_list := st.previews_list.erase window_id,
      hotkey_mgr := (unregister_hotkey st.hotkey_mgr ("preview_" ++ window_id)).1 }
  else st

theorem on_preview_closed_of_not_mem (st : ControllerState) (wid : String)
    (h : wid ∉ st.preview_frames) : on_preview_closed st wid = st := by
  simp [on_preview_closed, h]

theorem unregister_hotkey_removes (st : HotkeyManagerState) (name : String) :
    ¬ (unregister_hotkey st name).1.hotkeys.any (fun e => e.1 = name) := by
  by_cases h : st.hotkeys.any (fun e => e.1 = name)
  · have hh : (unregister_hotkey st name).1.hotkeys = dictErase st.hotkeys name := by
      simp only [unregister_hotkey, h, if_true]
      unfold restart_listener
      by_cases h0 : dictErase st.hotkeys name = [] <;> simp [h0]
    rw [hh]
    simp only [dictErase, List.any_eq_true, not_exists, not_and]
    intro e he
    have := List.of_mem_filter he
    simpa using this
  · simp only [unregister_hotkey]
    rw [if_neg h]
    exact h

/-- C9: closing a live panel removes it from the live-panel registry and
the previews list, leaves no hotkey binding named preview_w, and a
second close for the same window identifier is a no-op, so a double
triggered close cannot double-clean. -/
theorem on_preview_closed_exactly_once (st : ControllerState) (wid : String)
    (hnf : st.preview_frames.Nodup) (hnl : st.previews_list.Nodup)
    (hw : wid ∈ st.preview_frames) :
    wid ∉ (on_preview_closed st wid).preview_frames ∧
    wid ∉ (on_preview_closed st wid).previews_list ∧
    (¬ (on_preview_closed st wid).hotkey_mgr.hotkeys.any
      (fun e => e.1 = "preview_" ++ wid)) ∧
    on_preview_closed (on_preview_closed st wid) wid = on_preview_closed st wid := by
  have hfst : (on_preview_closed st wid).preview_frames = st.preview_frames.erase wid := by
    simp [on_preview_closed, hw]
  have hnot : wid ∉ (on_preview_closed st wid).preview_frames := by
    rw [hfst]
    intro hmem
    exact ((List.Nodup.mem_erase_iff hnf).mp hmem).1 rfl
  refine ⟨hnot, ?_, ?_, ?_⟩
  · simp only [on_preview_closed, hw, if_true]
    intro hmem
    exact ((List.Nodup.mem_erase_iff hnl).mp hmem).1 rfl
  · simp only [on_preview_closed, hw, if_true]
    exact unregister_hotkey_removes st.hotkey_mgr ("preview_" ++ wid)
  · exact on_preview_closed_of_not_mem _ _ hnot

/-- A one-panel controller state used by the witness. -/
def ctrlSample : ControllerState :=
  ⟨["0x1"], ["0x1"], ⟨[("preview_0x1", ⟨"<ctrl>+1", 5⟩)], none⟩⟩

/-- Witness for on_preview_closed_exactly_once on a one-panel state. -/
theorem on_preview_closed_exactly_once_witness :
    ctrlSample.preview_frames.Nodup ∧ ctrlSample.previews_list.Nodup ∧
    "0x1" ∈ ctrlSample.preview_frames ∧
    on_preview_closed (on_preview_closed ctrlSample "0x1") "0x1"
      = on_preview_closed ctrlSample "0x1" :=
  ⟨by decide, by decide, by decide,
   (on_preview_closed_exactly_once ctrlSample "0x1" (by decide) (by decide)
     (by decide)).2.2.2⟩

/-! Key combo conversion (core/hotkey_manager.py, parse_key_combo and
format_key_combo). Python strings are modelled as lists of characters;
str.lower, str.upper and str.capitalize are modelled on the ASCII range,
which covers every token the two functions distinguish. -/

/-- A Python string value as a list of characters. -/
abbrev PyStr := List Char

/-- The 26 ASCII letter pairs, uppercase paired with lowercase. -/
def asciiPairs : List (Char × Char) :=
  [('A', 'a'), ('B', 'b'), ('C', 'c'), ('D', 'd'), ('E', 'e'), ('F', 'f'),
   ('G', 'g'), ('H', 'h'), ('I', 'i'), ('J', 'j'), ('K', 'k'), ('L', 'l'),
   ('M', 'm'), ('N', 'n'), ('O', 'o'), ('P', 'p'), ('Q', 'q'), ('R', 'r'),
   ('S', 's'), ('T', 't'), ('U', 'u'), ('V', 'v'), ('W', 'w'), ('X', 'x'),
   ('Y', 'y'), ('Z', 'z')]

/-- ASCII model of lowercasing one character. -/
def lowerChar (c : Char) : Char :=
  match asciiPairs.find? (fun p => p.1 = c) with
  | some p => p.2
  | none => c

/-- ASCII model of uppercasing one character. -/
def upperChar (c : Char) : Char :=
  match asciiPairs.find? (fun p => p.2 = c) with
  | some p => p.1
  | none => c

/-- str.lower applied characterwise. -/
def pyLower (s : PyStr) : PyStr := s.map lowerChar

/-- str.split(sep) for a one-character separator, Python semantics:
splitting the empty string gives one empty part. -/
def pySplit (sep : Char) : PyStr → List PyStr
  | [] => [[]]
  | c :: cs =>
    if c = sep then [] :: pySplit sep cs
    else
      match pySplit sep cs with
      | [] => [[c]]
      | p :: ps => (c :: p) :: ps

/-- sep.join(parts) for a one-character separator. -/
def pyJoin (sep : Char) : List PyStr → PyStr
  | [] => []
  | [p] => p
  | p :: ps => p ++ sep :: pyJoin sep ps

/-- str.strip() with no argument: drop leading and trailing whitespace. -/
def pyStrip (s : PyStr) : PyStr :=
  ((s.dropWhile Char.isWhitespace).reverse.dropWhile Char.isWhitespace).reverse

/-- Membership in the strip set of the angle bracket strip call. -/
def isAngle (c : Char) : Bool := c = '<' || c = '>'

/-- The part.strip of angle brackets call of format_key_combo. -/
def stripAngles (s : PyStr) : PyStr :=
  ((s.dropWhile isAngle).reverse.dropWhile isAngle).reverse

/-- str.capitalize: first character uppercased, the rest lowercased. -/
def pyCapitalize : PyStr → PyStr
  | [] => []
  | c :: cs => upperChar c :: cs.map lowerChar

/-- The key_map dictionary of parse_key_combo, looked up by if part is
in key_map. -/
def keyMapLookup (part : PyStr) : Option PyStr :=
  if part = "ctrl".toList then some "<ctrl>".toList
  else if part = "control".toList then some "<ctrl>".toList
  else if part = "alt".toList then some "<alt>".toList
  else if part = "shift".toList then some "<shift>".toList
  else if part = "super".toList then some "<cmd>".toList
  else if part = "win".toList then some "<cmd>".toList
  else if part = "cmd".toList then some "<cmd>".toList
  else none

/-- part.startswith of f and part from index 1 on is all digits. -/
def isFunctionKeyToken (part : PyStr) : Bool :=
  match part with
  | 'f' :: rest => !rest.isEmpty && rest.all Char.isDigit
  | _ => false

/-- The body of parse_key_combo's loop for one part: strip, look up the
modifier aliases, keep single characters, wrap everything else in angle
brackets (function keys and other special keys produce the same shape). -/
def parseToken (part0 : PyStr) : PyStr :=
  let part := pyStrip part0
  match keyMapLookup part with
  | some v => v
  | none =>
    if part.length = 1 then part
    else if isFunctionKeyToken part then '<' :: (part ++ ['>'])
    else '<' :: (part ++ ['>'])

/-- HotkeyManager.parse_key_combo: lowercase, split on plus, translate
each part, join with plus. -/
def parse_key_combo (combo_string : PyStr) : PyStr :=
  pyJoin '+' ((pySplit '+' (pyLower combo_string)).map parseToken)

/-- The body of format_key_combo's loop for one part: strip angle
brackets, capitalize, display cmd as Super. -/
def formatToken (part0 : PyStr) : PyStr :=
  let part := pyCapitalize (stripAngles part0)
  if part = "Cmd".toList then "Super".toList else part

/-- HotkeyManager.format_key_combo: split on plus, format each part,
join with plus. -/
def format_key_combo (pynput_combo : PyStr) : PyStr :=
  pyJoin '+' ((pySplit '+' pynput_combo).map formatToken)

/-- The modifier alias tokens recognized by parse_key_combo. -/
def aliasKeys : List PyStr :=
  ["ctrl".toList, "control".toList, "alt".toList, "shift".toList,
   "super".toList, "win".toList, "cmd".toList]

/-- Canonical capitalized form of one modifier token, following the
spec's words: ctrl and control to Ctrl, alt to Alt, shift to Shift,
super, win and cmd to Super. -/
def canonicalMod (m : PyStr) : PyStr :=
  if pyLower m = "ctrl".toList ∨ pyLower m = "control".toList then "Ctrl".toList
  else if pyLower m = "alt".toList then "Alt".toList
  else if pyLower m = "shift".toList then "Shift".toList
  else "Super".toList

/-- Canonical capitalized form of a whole combo of modifier tokens and a
final character, following the spec's words. -/
def canonicalForm (mods : List PyStr) (c : Char) : PyStr :=
  pyJoin '+' (mods.map canonicalMod ++ [[upperChar c]])

theorem lowerChar_facts (c : Char) :
    (c ≠ '+' → lowerChar c ≠ '+') ∧
    (c ≠ '<' → lowerChar c ≠ '<') ∧
    (c ≠ '>' → lowerChar c ≠ '>') ∧
    (¬ c.isWhitespace → ¬ (lowerChar c).isWhitespace) ∧
    upperChar (lowerChar c) = upperChar c := by
  have hAll : ∀ p ∈ asciiPairs, p.2 ≠ '+' ∧ p.2 ≠ '<' ∧ p.2 ≠ '>' ∧
      ¬ (p.2.isWhitespace) ∧ upperChar p.2 = p.1 ∧ upperChar p.1 = p.1 := by decide
  unfold lowerChar
  cases hf : asciiPairs.find? (fun p => p.1 = c) with
  | none => exact ⟨fun h => h, fun h => h, fun h => h, fun h => h, rfl⟩
  | some p =>
    have hmem := List.mem_of_find?_eq_some hf
    have hpc : p.1 = c := by simpa using List.find?_some hf
    have hp := hAll p hmem
    exact ⟨fun _ => hp.1, fun _ => hp.2.1, fun _ => hp.2.2.1, fun _ => hp.2.2.2.1,
      by rw [hp.2.2.2.2.1, ← hpc, hp.2.2.2.2.2]⟩

theorem pyJoin_map (f : Char → Char) (sep : Char) (L : List PyStr) :
    (pyJoin sep L).map f = pyJoin (f sep) (L.map (List.map f)) := by
  induction L with
  | nil => rfl
  | cons p ps ih =>
    cases ps with
    | nil => rfl
    | cons q qs => simp [pyJoin, ih]

theorem pySplit_no_sep (sep : Char) (p : PyStr) (h : sep ∉ p) :
    pySplit sep p = [p] := by
  induction p with
  | nil => rfl
  | cons c cs ih =>
    simp only [List.mem_cons, not_or] at h
    rw [pySplit, if_neg (fun hc => h.1 hc.symm), ih h.2]

theorem pySplit_append_sep (sep : Char) (p t : PyStr) (h : sep ∉ p) :
    pySplit sep (p ++ sep :: t) = p :: pySplit sep t := by
  induction p with
  | nil => simp [pySplit]
  | cons c cs ih =>
    simp only [List.mem_cons, not_or] at h
    rw [List.cons_append, pySplit, if_neg (fun hc => h.1 hc.symm), ih h.2]

theorem pySplit_pyJoin (sep : Char) (L : List PyStr) (hne : L ≠ [])
    (h : ∀ p ∈ L, sep ∉ p) : pySplit sep (pyJoin sep L) = L := by
  induction L with
  | nil => exact absurd rfl hne
  | cons p ps ih =>
    cases ps with
    | nil => exact pySplit_no_sep sep p (h p (by simp))
    | cons q qs =>
      have hj : pyJoin sep (p :: q :: qs) = p ++ sep :: pyJoin sep (q :: qs) := rfl
      rw [hj, pySplit_append_sep sep p _ (h p (by simp)),
        ih (List.cons_ne_nil q qs) (fun x hx => h x (List.mem_cons_of_mem p hx))]

theorem alias_token_facts : ∀ a ∈ aliasKeys,
    ('+' ∉ a) ∧ ('+' ∉ parseToken a) := by decide

theorem alias_format_parse : ∀ m : PyStr, pyLower m ∈ aliasKeys →
    formatToken (parseToken (pyLower m)) = canonicalMod m := by
  intro m hm
  have h7 : pyLower m = "ctrl".toList ∨ pyLower m = "control".toList ∨
      pyLower m = "alt".toList ∨ pyLower m = "shift".toList ∨
      pyLower m = "super".toList ∨ pyLower m = "win".toList ∨
      pyLower m = "cmd".toList := by simpa [aliasKeys] using hm
  rcases h7 with h | h | h | h | h | h | h <;>
    simp only [canonicalMod, h] <;> decide

theorem parseToken_single (x : Char) (hws : ¬ x.isWhitespace) :
    parseToken [x] = [x] := by
  have hstrip : pyStrip [x] = [x] := by
    simp [pyStrip, List.dropWhile, hws]
  have hkey : keyMapLookup [x] = none := by
    simp [keyMapLookup]
  simp [parseToken, hstrip, hkey]

theorem formatToken_single (x : Char) (hlt : x ≠ '<') (hgt : x ≠ '>') :
    formatToken [x] = [upperChar x] := by
  have hangle : isAngle x = false := by simp [isAngle, hlt, hgt]
  have hstrip : stripAngles [x] = [x] := by
    simp [stripAngles, List.dropWhile, hangle]
  have hcap : pyCapitalize [x] = [upperChar x] := by simp [pyCapitalize]
  have hne : ([upperChar x] : PyStr) ≠ "Cmd".toList := by
    intro h
    exact absurd (congrArg List.length h) (by simp)
  simp [formatToken, hstrip, hcap, hne]

/-- C6 counterexample: the claim quantifies over every printable final
character, but for the printable character < the round trip drops the
character: parse then format of ctrl+< yields Ctrl+ while the canonical
capitalized form is Ctrl+<. -/
theorem parse_format_combo_counterexample :
    format_key_combo (parse_key_combo ("ctrl+<".toList)) = "Ctrl+".toList ∧
    canonicalForm ["ctrl".toList] '<' = "Ctrl+<".toList ∧
    "Ctrl+".toList ≠ "Ctrl+<".toList := by
  refine ⟨by decide, by decide, by decide⟩

/-- C6 amended: for every combo built from modifier-alias tokens in any
casing joined by plus with a single final character that is not plus,
an angle bracket or whitespace, parsing and then formatting yields the
canonical capitalized form. -/
theorem parse_format_canonical (mods : List PyStr) (c : Char)
    (hm : ∀ m ∈ mods, pyLower m ∈ aliasKeys)
    (hplus : c ≠ '+') (hlt : c ≠ '<') (hgt : c ≠ '>')
    (hws : ¬ c.isWhitespace) :
    format_key_combo (parse_key_combo (pyJoin '+' (mods ++ [[c]]))) =
      canonicalForm mods c := by
  have hcf := lowerChar_facts c
  have hlow : pyLower (pyJoin '+' (mods ++ [[c]])) =
      pyJoin '+' (mods.map pyLower ++ [[lowerChar c]]) := by
    have := pyJoin_map lowerChar '+' (mods ++ [[c]])
    have hsep : lowerChar '+' = '+' := by decide
    simpa [pyLower, hsep, List.map_append] using this
  have hsplit1 : pySplit '+' (pyJoin '+' (mods.map pyLower ++ [[lowerChar c]])) =
      mods.map pyLower ++ [[lowerChar c]] := by
    refine pySplit_pyJoin '+' _ (by simp) ?_
    intro p hp
    rcases List.mem_append.mp hp with hp1 | hp2
    · rcases List.mem_map.mp hp1 with ⟨m, hmm, rfl⟩
      exact (alias_token_facts (pyLower m) (hm m hmm)).1
    · have : p = [lowerChar c] := by simpa using hp2
      subst this
      simpa using (hcf.1 hplus).symm
  have htok : (mods.map pyLower ++ [[lowerChar c]]).map parseToken =
      (mods.map pyLower).map parseToken ++ [[lowerChar c]] := by
    rw [List.map_append]
    simp [parseToken_single (lowerChar c) (hcf.2.2.2.1 hws)]
  have hsplit2 : pySplit '+'
      (pyJoin '+' ((mods.map pyLower).map parseToken ++ [[lowerChar c]])) =
      (mods.map pyLower).map parseToken ++ [[lowerChar c]] := by
    refine pySplit_pyJoin '+' _ (by simp) ?_
    intro p hp
    rcases List.mem_append.mp hp with hp1 | hp2
    · rcases List.mem_map.mp hp1 with ⟨m', hm', rfl⟩
      rcases List.mem_map.mp hm' with ⟨m, hmm, rfl⟩
      exact (alias_token_facts (pyLower m) (hm m hmm)).2
    · have : p = [lowerChar c] := by simpa using hp2
      subst this
      simpa using (hcf.1 hplus).symm
  have hfmt : ((mods.map pyLower).map parseToken ++ [[lowerChar c]]).map formatToken =
      mods.map canonicalMod ++ [[upperChar c]] := by
    rw [List.map_append, List.map_map, List.map_map]
    congr 1
    · refine List.map_congr_left ?_
      intro m hmm
      exact alias_format_parse m (hm m hmm)
    · have h1 := formatToken_single (lowerChar c) (hcf.2.1 hlt) (hcf.2.2.1 hgt)
      simp [h1, hcf.2.2.2.2]
  rw [parse_key_combo, hlow, hsplit1, format_key_combo, htok, hsplit2, hfmt,
    canonicalForm]

/-- Witness for parse_format_canonical: mixed-casing modifiers with a
letter produce the canonical form. -/
theorem parse_format_canonical_witness :
    (∀ m ∈ ["cTRl".toList, "WIN".toList], pyLower m ∈ aliasKeys) ∧
    format_key_combo (parse_key_combo
      (pyJoin '+' (["cTRl".toList, "WIN".toList] ++ [['a']]))) =
      canonicalForm ["cTRl".toList, "WIN".toList] 'a' :=
  ⟨by decide,
   parse_format_canonical ["cTRl".toList, "WIN".toList] 'a' (by decide)
     (by decide) (by decide) (by decide) (by decide)⟩

end EveOverview
